import Mathlib

/-!
Shallow embedding of the TaskManager class from
src/ttask_manager/ttask_manager.py.

Python dicts are insertion-ordered mappings from task name to priority;
they are embedded as association lists without duplicate exact keys,
with assignment replacing in place and appending fresh keys at the end,
exactly as CPython dicts behave.  Priorities are either strings
("literal" mode) or integers ("numerical" mode).  Methods that print
through the rich console are embedded as functions returning their
state change together with the reported lists; a raised Python
exception is embedded as the `some`-valued second component of the
result (the state component then holds the mutations already performed
before the raise, matching Python semantics where earlier loop
iterations have already mutated the object).
-/

/-- Priority values: Python str or int. -/
inductive Priority where
  | s (v : String)
  | n (v : Int)
deriving DecidableEq, Repr

/-- The two values of TaskManager.priorities_type: "literal" (str) and
"numerical" (int), as returned by instantiation_legibility. -/
inductive PType where
  | literal
  | numerical
deriving DecidableEq, Repr

/-- Python str.lower() for the ASCII range (the repository only uses
ASCII task names and priority levels), written over the character list
so that it evaluates by kernel reduction. -/
def chLower (c : Char) : Char :=
  if 65 ≤ c.toNat ∧ c.toNat ≤ 90 then Char.ofNat (c.toNat + 32) else c

/-- str.lower() on a whole string. -/
def strLower (s : String) : String :=
  String.mk (s.data.map chLower)

/-- Python str.lower() lifted to priorities; ints are unchanged. -/
def Priority.lower : Priority → Priority
  | .s v => .s (strLower v)
  | .n v => .n v

/-- The label that _verify_task_priority computes with types_reference:
type(x) is str gives "literal", type(x) is int gives "numerical". -/
def priorityTypeOf : Priority → PType
  | .s _ => .literal
  | .n _ => .numerical

/-- A Python dict from task name to priority, as an assoc list in
insertion order. -/
abbrev Dict := List (String × Priority)

/-- Python `k in d`. -/
def dictContains (d : Dict) (k : String) : Bool :=
  d.any (fun kv => kv.1 == k)

/-- Python `d[k]` as an optional lookup (first entry with that exact
key); `none` corresponds to KeyError. -/
def dictGet? (d : Dict) (k : String) : Option Priority :=
  match d with
  | [] => none
  | kv :: rest => if kv.1 == k then some kv.2 else dictGet? rest k

/-- Python `d[k] = v`: replace the value in place when the key exists,
keeping its position, else append the new binding at the end. -/
def dictSet (d : Dict) (k : String) (v : Priority) : Dict :=
  match d with
  | [] => [(k, v)]
  | kv :: rest => if kv.1 == k then (kv.1, v) :: rest else kv :: dictSet rest k v

/-- Python `d.pop(k)` (the removal part; the KeyError on a missing key is
handled at each call site, as the source calls pop without a default). -/
def dictPop (d : Dict) (k : String) : Dict :=
  d.filter (fun kv => kv.1 != k)

/-- The lowercased key list of a dict, i.e. `[k.lower() for k in d]`. -/
def lower_keys (d : Dict) : List String :=
  d.map (fun kv => strLower kv.1)

/-- Lookup in `{task.lower(): task for task in d.keys()}`: a dict
comprehension keeps the last binding of each lowered key. -/
def task_keys_get (d : Dict) (q : String) : Option String :=
  ((d.filter (fun kv => strLower kv.1 == q)).getLast?).map (fun kv => kv.1)

/-- The TaskManager state: the four dicts plus the configuration set up
by __init__. -/
structure TaskManager where
  to_do : Dict
  done : Dict
  daily_added_tasks : Dict
  daily_completed_tasks : Dict
  priority_levels : List Priority
  default_priority : Priority
  priorities_type : PType
  priorities_order_ascending : Bool
deriving DecidableEq, Repr

/-- A fresh TaskManager() with the default configuration:
priority_levels ['high', 'medium', 'low'], default 'medium',
literal priorities, descending order, all four dicts empty. -/
def initTaskManager : TaskManager :=
  { to_do := []
    done := []
    daily_added_tasks := []
    daily_completed_tasks := []
    priority_levels := [Priority.s "high", Priority.s "medium", Priority.s "low"]
    default_priority := Priority.s "medium"
    priorities_type := PType.literal
    priorities_order_ascending := false }

/-- _verify_task_priority(p, which_one='priority'): returns the priority
when its type label matches priorities_type and raises ValueError
otherwise. -/
def verify_task_priority (m : TaskManager) (p : Priority) : Except String Priority :=
  if priorityTypeOf p = m.priorities_type then Except.ok p
  else Except.error "ValueError: invalid priority type"

/-- The membership test add_task performs on the priority: in literal
mode `priority.lower() in (p.lower() for p in priority_levels)`, in
numerical mode `priority in priority_levels`.  priority_levels is never
mutated, so reading it from the live state coincides with the set the
source computes once before its loop. -/
def priority_allowed (m : TaskManager) (p : Priority) : Bool :=
  match m.priorities_type with
  | .literal => (m.priority_levels.map Priority.lower).contains p.lower
  | .numerical => m.priority_levels.contains p

/-- One argument of add_task(*tasks_priorities): a bare name, a
(name, priority) pair, or any other value (which is skipped with a
console message). -/
inductive AddArg where
  | taskName (t : String)
  | pair (t : String) (p : Priority)
  | other
deriving DecidableEq, Repr

/-- The loop state of add_task: the manager plus the four report lists. -/
structure AddAcc where
  m : TaskManager
  added_tasks : List String
  not_added : List String
  not_added_existence : List String
  not_added_priority : List String
deriving DecidableEq, Repr

/-- The branch chain in the body of the add_task loop.  `snapshot` is
the lowercased to_do key set computed ONCE before the loop; it is not
refreshed when a task is inserted. -/
def add_insert (snapshot : List String) (acc : AddAcc) (task : String)
    (priority : Priority) : AddAcc :=
  let inTasks := snapshot.contains (strLower task)
  let inLvls := priority_allowed acc.m priority
  if !inTasks && inLvls then
    { acc with
      m := { acc.m with
        to_do := dictSet acc.m.to_do task priority
        daily_added_tasks := dictSet acc.m.daily_added_tasks task priority }
      added_tasks := acc.added_tasks ++ [task] }
  else if inTasks && !inLvls then
    { acc with not_added := acc.not_added ++ [task] }
  else if inTasks then
    { acc with not_added_existence := acc.not_added_existence ++ [task] }
  else if !inLvls then
    { acc with not_added_priority := acc.not_added_priority ++ [task] }
  else acc

/-- One iteration of the add_task loop.  A tuple argument goes through
_verify_task_priority, whose ValueError propagates; a bare string uses
default_priority; anything else is skipped. -/
def add_step (snapshot : List String) (acc : AddAcc) (arg : AddArg) :
    AddAcc × Option String :=
  match arg with
  | .other => (acc, none)
  | .taskName t => (add_insert snapshot acc t acc.m.default_priority, none)
  | .pair t p =>
    match verify_task_priority acc.m p with
    | .error e => (acc, some e)
    | .ok p2 => (add_insert snapshot acc t p2, none)

/-- Runs a Python for-loop whose body may raise: on a raise the
iteration stops and the mutations already performed are kept. -/
def runLoop {σ α : Type} (f : σ → α → σ × Option String) :
    σ → List α → σ × Option String
  | s, [] => (s, none)
  | s, a :: rest =>
    match f s a with
    | (s2, none) => runLoop f s2 rest
    | (s2, some e) => (s2, some e)

/-- TaskManager.add_task.  The second component is the propagated
exception, if any. -/
def add_task (m : TaskManager) (args : List AddArg) : AddAcc × Option String :=
  runLoop (add_step (lower_keys m.to_do)) (AddAcc.mk m [] [] [] []) args

/-- The loop state of remove_task. -/
structure RemoveAcc where
  m : TaskManager
  removed_tasks : List String
  not_found_tasks : List String
deriving DecidableEq, Repr

/-- One iteration of the remove_task loop.  `tk` is the task_keys dict
built once from to_do before the loop.  Both pops are without a
default, so a missing key raises KeyError; the to_do pop happens first
and its mutation survives a raise of the daily_added_tasks pop. -/
def remove_step (tk : Dict) (acc : RemoveAcc) (task : String) :
    RemoveAcc × Option String :=
  match task_keys_get tk (strLower task) with
  | none => ({ acc with not_found_tasks := acc.not_found_tasks ++ [task] }, none)
  | some og =>
    if dictContains acc.m.to_do og then
      let m1 := { acc.m with to_do := dictPop acc.m.to_do og }
      if dictContains m1.daily_added_tasks og then
        ({ acc with
            m := { m1 with daily_added_tasks := dictPop m1.daily_added_tasks og }
            removed_tasks := acc.removed_tasks ++ [og] }, none)
      else
        ({ acc with m := m1 }, some "KeyError: daily_added_tasks")
    else
      (acc, some "KeyError: to_do")

/-- TaskManager.remove_task. -/
def remove_task (m : TaskManager) (tasks : List String) :
    RemoveAcc × Option String :=
  runLoop (remove_step m.to_do) (RemoveAcc.mk m [] []) tasks

/-- The loop state of task_done. -/
structure DoneAcc where
  m : TaskManager
  done_tasks : List String
  already_done_tasks : List String
  absent_tasks : List String
deriving DecidableEq, Repr

/-- One iteration of the task_done loop.  `tk` is the task_keys dict
built once from to_do before the loop.  The membership test against
done is by the exact stored name; the to_do lookup can raise KeyError
when a duplicated query already moved the entry. -/
def done_step (tk : Dict) (acc : DoneAcc) (task : String) :
    DoneAcc × Option String :=
  match task_keys_get tk (strLower task) with
  | none => ({ acc with absent_tasks := acc.absent_tasks ++ [task] }, none)
  | some og =>
    if dictContains acc.m.done og then
      ({ acc with already_done_tasks := acc.already_done_tasks ++ [og] }, none)
    else
      match dictGet? acc.m.to_do og with
      | none => (acc, some "KeyError: to_do")
      | some p =>
        ({ acc with
            m := { acc.m with
              done := dictSet acc.m.done og p
              daily_completed_tasks := dictSet acc.m.daily_completed_tasks og p
              to_do := dictPop acc.m.to_do og }
            done_tasks := acc.done_tasks ++ [og] }, none)

/-- TaskManager.task_done. -/
def task_done (m : TaskManager) (tasks : List String) :
    DoneAcc × Option String :=
  runLoop (done_step m.to_do) (DoneAcc.mk m [] [] []) tasks

/-- TaskManager.clear: returns the new state and the console message.
The 'both' branch tests only the truthiness of to_do. -/
def clear (m : TaskManager) (which_one : String) : TaskManager × String :=
  let w := strLower which_one
  if w == "todo" then
    if !m.to_do.isEmpty then
      ({ m with to_do := [], daily_added_tasks := [] },
        " To-do list is cleared successfully.")
    else (m, "To-do list is empty.")
  else if w == "done" then
    if !m.done.isEmpty then
      ({ m with done := [], daily_completed_tasks := [] },
        "Done list is cleared successfully.")
    else (m, "Done list is empty.")
  else if w == "both" then
    if !m.to_do.isEmpty then
      ({ m with to_do := [], done := [],
                daily_added_tasks := [], daily_completed_tasks := [] },
        "Both lists are cleared successfully.")
    else (m, "Both lists are empty.None cleared.")
  else (m, "Invalid option.")

/-- The content of a saved JSON file: a JSON object mapping key strings
to task dicts.  json round-trips string-keyed objects with str or int
values exactly, so the file is embedded at this level. -/
abbrev FileData := List (String × Dict)

/-- Python `data.get(k, dict())` on a parsed JSON object; a JSON parser
keeps the last binding of a repeated key. -/
def fileGet (f : FileData) (k : String) : Dict :=
  match (f.filter (fun kv => kv.1 == k)).getLast? with
  | some kv => kv.2
  | none => []

/-- The TaskManager.data property: the object that save_current_state
serializes. -/
def save_data (m : TaskManager) : FileData :=
  [("to_do", m.to_do), ("done", m.done),
   ("daily added tasks", m.daily_added_tasks),
   ("daily completed tasks", m.daily_completed_tasks)]

/-- TaskManager.load_state on a successfully parsed file: the four
dicts are replaced by the corresponding entries of the file, defaulting
to empty. -/
def load_state (m : TaskManager) (f : FileData) : TaskManager :=
  { m with
    to_do := fileGet f "to_do"
    done := fileGet f "done"
    daily_added_tasks := fileGet f "daily added tasks"
    daily_completed_tasks := fileGet f "daily completed tasks" }

/-- Last index of a character in a list, i.e. Python str.rfind for a
present character. -/
def rfindIdx (l : List Char) (c : Char) : Option Nat :=
  ((List.range l.length).filter (fun i => l.getD i ' ' == c)).getLast?

/-- The extension part of os.path.splitext: the suffix from the last
dot, provided that dot lies after the last path separator and some
non-dot character of the basename comes before it (a basename of only
leading dots has no extension). -/
def splitextExt (l : List Char) : List Char :=
  match rfindIdx l '.' with
  | none => []
  | some d =>
    let s : Nat :=
      match rfindIdx l '/' with
      | none => 0
      | some i => i + 1
    if s ≤ d && (List.range d).any (fun k => decide (s ≤ k) && (l.getD k ' ' != '.')) then
      l.drop d
    else []

/-- TaskManager.save_current_state.  `fileExistsOn` is the os.path.exists
view of the disk; the path is taken as already absolute.  The first
component is the file written, if any: the method refuses to write when
the path does not already exist or when its extension, lowercased, is
not ".json". -/
def save_current_state (fileExistsOn : String → Bool) (m : TaskManager)
    (path : String) : Option FileData × String :=
  if !(fileExistsOn path) then
    (none, path ++ " is invalid as a data file path to save to.")
  else if strLower (String.mk (splitextExt path.data)) ≠ ".json" then
    (none, path ++ " is invalid as a data file to save to, only .json files allowed.")
  else
    (some (save_data m), "Data written successfully.")

/-- The sort key _format_task_list computes for one stored priority:
its first index in priority_levels (on the lowercased priority in
literal mode); `none` is the ValueError of list.index. -/
def sortKey (m : TaskManager) (p : Priority) : Option Nat :=
  match m.priorities_type with
  | .numerical => m.priority_levels.findIdx? (fun q => q == p)
  | .literal => m.priority_levels.findIdx? (fun q => q == p.lower)

/-- The key computation of Python sorted: every item's key is computed
up front; any failure raises before anything is ordered. -/
def keyedList (m : TaskManager) : Dict → Option (List ((String × Priority) × Nat))
  | [] => some []
  | kv :: rest =>
    match sortKey m kv.2, keyedList m rest with
    | some k, some l => some ((kv, k) :: l)
    | _, _ => none

/-- The comparison Python sorted uses on the keyed items:
reverse=priorities_order_ascending flips it. -/
def keyLe (asc : Bool) (a b : (String × Priority) × Nat) : Prop :=
  match asc with
  | true => b.2 ≤ a.2
  | false => a.2 ≤ b.2

instance keyLeDecidable (asc : Bool) : DecidableRel (keyLe asc) := by
  cases asc <;> exact fun a b => Nat.decLe _ _

/-- The sorted(tasks.items(), key=..., reverse=...) call of
_format_task_list: Python sorted is a stable sort, which insertionSort
over the non-strict key comparison reproduces. -/
def sorted_tasks (m : TaskManager) (tasks : Dict) :
    Except String (List (String × Priority)) :=
  match keyedList m tasks with
  | none => Except.error "ValueError: priority is not in priority_levels"
  | some keyed =>
    Except.ok ((keyed.insertionSort (keyLe m.priorities_order_ascending)).map
      (fun x => x.1))

/-- Python left-justification f-string padding. -/
def ljust (s : String) (w : Nat) : String :=
  s ++ String.mk (List.replicate (w - s.length) ' ')

/-- Python str.capitalize(): first character uppercased, the rest
lowercased. -/
def pyCapitalize (s : String) : String :=
  match s.data with
  | [] => ""
  | c :: rest => String.mk (c.toUpper :: rest.map Char.toLower)

/-- The priority cell of one formatted row: capitalized in literal
mode, printed as is in numerical mode. -/
def showPriorityCell (m : TaskManager) (p : Priority) : String :=
  match m.priorities_type, p with
  | .literal, .s v => pyCapitalize v
  | _, .s v => v
  | _, .n v => toString v

/-- TaskManager._format_task_list (the returned text report string): an
empty dict short-circuits; otherwise the items are sorted, which
propagates the ValueError of list.index on an unknown priority. -/
def format_task_list (m : TaskManager) (tasks : Dict) (which_one : String) :
    Except String String :=
  if tasks.isEmpty then Except.ok ("No " ++ which_one ++ " tasks.")
  else
    match sorted_tasks m tasks with
    | .error e => Except.error e
    | .ok sorted =>
      let maxLen := (tasks.map (fun kv => kv.1.length)).foldl Nat.max 0 + 2
      let header := ljust "ID" 4 ++ " " ++ ljust "Task" maxLen ++ " Priority\n"
        ++ String.mk (List.replicate 4 '-') ++ " "
        ++ String.mk (List.replicate maxLen '-') ++ " "
        ++ String.mk (List.replicate 8 '-') ++ "\n"
      let body := String.join (sorted.enum.map (fun ik =>
        ljust (toString (ik.1 + 1)) 5 ++ ljust ik.2.1 (maxLen + 1)
          ++ showPriorityCell m ik.2.2 ++ "\n"))
      Except.ok (pyCapitalize which_one ++ " Tasks:\n" ++ header ++ body)

/-- TaskManager.current_state: formats to_do, done or both; a raise in
the to_do formatting propagates before done is formatted. -/
def current_state (m : TaskManager) (opt : String) : Except String String :=
  if opt == "both" then
    match format_task_list m m.to_do "to-do", format_task_list m m.done "done" with
    | .ok a, .ok b => Except.ok (a ++ "\n" ++ b)
    | .error e, _ => Except.error e
    | _, .error e => Except.error e
  else if opt == "to-do" then format_task_list m m.to_do "to-do"
  else if opt == "done" then format_task_list m m.done "done"
  else Except.ok "Invalid option."

/-- The operations of the public mutating interface, for stating the
cross-list invariant over operation sequences. -/
inductive Op where
  | add (args : List AddArg)
  | remove (tasks : List String)
  | complete (tasks : List String)
  | clearOp (which : String)
  | load (file : FileData)
deriving Repr

/-- The state after one operation (exceptions leave the mutations
performed before the raise, as in Python). -/
def applyOp (m : TaskManager) : Op → TaskManager
  | .add args => (add_task m args).1.m
  | .remove ts => (remove_task m ts).1.m
  | .complete ts => (task_done m ts).1.m
  | .clearOp w => (clear m w).1
  | .load f => load_state m f

/-- The state after a sequence of operations. -/
def applyOps (m : TaskManager) : List Op → TaskManager
  | [] => m
  | op :: rest => applyOps (applyOp m op) rest

/-- The cross-list invariant: no name appears, case-insensitively, in
both to_do and done. -/
abbrev CrossInv (m : TaskManager) : Prop :=
  ∀ s ∈ lower_keys m.to_do, s ∉ lower_keys m.done

/-- to_do holds no two names with the same lowercase form. -/
abbrev TodoNodup (m : TaskManager) : Prop :=
  (lower_keys m.to_do).Nodup

/-- The task name carried by an add_task argument. -/
def argName? : AddArg → Option String
  | .taskName t => some t
  | .pair t _ => some t
  | .other => none

/-- The side conditions under which one operation preserves the
invariant: an add_task call must not pass two case-insensitively equal
names nor a name already in done, and a loaded file must itself satisfy
the invariant. -/
def OKOp (m : TaskManager) : Op → Prop
  | .add args =>
    ((args.filterMap argName?).map strLower).Nodup ∧
    ∀ t ∈ args.filterMap argName?, strLower t ∉ lower_keys m.done
  | .load f =>
    (∀ s ∈ lower_keys (fileGet f "to_do"), s ∉ lower_keys (fileGet f "done")) ∧
    (lower_keys (fileGet f "to_do")).Nodup
  | _ => True

instance okOpDecidable (m : TaskManager) (op : Op) : Decidable (OKOp m op) := by
  cases op <;> dsimp only [OKOp] <;> infer_instance

/-- Every operation of the sequence satisfies its side condition at the
state where it runs. -/
def OKSeq : TaskManager → List Op → Prop
  | _, [] => True
  | m, op :: rest => OKOp m op ∧ OKSeq (applyOp m op) rest

instance okSeqDecidable : (m : TaskManager) → (ops : List Op) → Decidable (OKSeq m ops)
  | _, [] => isTrue trivial
  | m, op :: rest =>
    @instDecidableAnd _ _ (okOpDecidable m op) (okSeqDecidable (applyOp m op) rest)

/-- C1 is refuted on the code by this run: add "a", complete it, then
add "a" again; add_task checks only to_do, so afterwards the name "a"
is in to_do and in done at the same time. -/
theorem c1_counterexample :
  "a" ∈ lower_keys (applyOps initTaskManager
      [Op.add [AddArg.taskName "a"], Op.complete ["a"],
       Op.add [AddArg.taskName "a"]]).to_do ∧
  "a" ∈ lower_keys (applyOps initTaskManager
      [Op.add [AddArg.taskName "a"], Op.complete ["a"],
       Op.add [AddArg.taskName "a"]]).done := by decide

/-- C2: the lowercased to_do snapshot is computed once per add_task
call, so a case-variant repeat inside one call is inserted a second
time; after add_task("A", ("a", "low")) on a fresh manager, to_do holds
both spellings instead of only the first. -/
theorem c2_same_call_duplicate_inserted :
  (add_task initTaskManager
      [AddArg.taskName "A", AddArg.pair "a" (Priority.s "low")]).1.m.to_do
    = [("A", Priority.s "medium"), ("a", Priority.s "low")] ∧
  (add_task initTaskManager
      [AddArg.taskName "A", AddArg.pair "a" (Priority.s "low")]).1.m.daily_added_tasks
    = [("A", Priority.s "medium"), ("a", Priority.s "low")] := by decide

/-- A state in which "a" is pending but absent from the daily ledger,
as load_state produces from a file holding only to_do. -/
def c3_state : TaskManager :=
  { initTaskManager with to_do := [("a", Priority.s "medium")] }

/-- C3: remove_task pops daily_added_tasks without a default, so on a
state where the name is in to_do but not in daily_added_tasks the call
raises KeyError after having already removed the name from to_do. -/
theorem c3_remove_task_raises :
  (remove_task c3_state ["a"]).2 = some "KeyError: daily_added_tasks" ∧
  (remove_task c3_state ["a"]).1.m.to_do = [] := by decide

/-- C4 is refuted on the code at this input: with string priority
levels configured, add_task(("a", 5)) reaches _verify_task_priority,
which raises ValueError instead of reporting. -/
theorem c4_counterexample :
  (add_task initTaskManager [AddArg.pair "a" (Priority.n 5)]).2
    = some "ValueError: invalid priority type" := by decide

/-- C5: loading the file written by save reproduces the four mappings
exactly, keys, values and order, on any TaskManager it is loaded into. -/
theorem c5_save_load_roundtrip (m t : TaskManager) :
  (load_state t (save_data m)).to_do = m.to_do ∧
  (load_state t (save_data m)).done = m.done ∧
  (load_state t (save_data m)).daily_added_tasks = m.daily_added_tasks ∧
  (load_state t (save_data m)).daily_completed_tasks = m.daily_completed_tasks :=
  ⟨rfl, rfl, rfl, rfl⟩

/-- A state with an empty to_do list and a non-empty done list. -/
def c6_state : TaskManager :=
  { initTaskManager with done := [("a", Priority.s "medium")] }

/-- C6: the 'both' branch of clear tests only the truthiness of to_do,
so with to_do empty and done non-empty nothing is cleared and the
message claims both lists are empty. -/
theorem c6_clear_both_skips_done :
  (clear c6_state "both").1 = c6_state ∧
  (clear c6_state "both").2 = "Both lists are empty.None cleared." := by decide

/-- A manager whose configured string levels are capitalized; add_task
accepts them case-insensitively but the sort of _format_task_list looks
up the lowercased stored priority in the unlowered level list. -/
def c8_mgr : TaskManager :=
  { initTaskManager with
      priority_levels := [Priority.s "High", Priority.s "Medium", Priority.s "Low"] }

/-- C8 is refuted on the code at this input: the stored priority "High"
is literally in the configured level set, yet sorting lowercases only
the stored value, finds no index, and list.index raises ValueError. -/
theorem c8_counterexample :
  Priority.s "High" ∈ c8_mgr.priority_levels ∧
  sorted_tasks c8_mgr [("a", Priority.s "High")]
    = Except.error "ValueError: priority is not in priority_levels" ∧
  format_task_list c8_mgr [("a", Priority.s "High")] "to-do"
    = Except.error "ValueError: priority is not in priority_levels" :=
  ⟨by decide, rfl, rfl⟩

/-- C9: save_current_state writes nothing when the target path does not
already exist on disk or when its extension, lowercased, is not .json;
in particular a fresh, never-created .json path is always refused. -/
theorem c9_save_refused (fsx : String → Bool) (m : TaskManager) (path : String)
    (h : fsx path = false ∨ strLower (String.mk (splitextExt path.data)) ≠ ".json") :
    (save_current_state fsx m path).1 = none := by
  unfold save_current_state
  rcases h with h | h
  · rw [h]; simp
  · cases hfs : fsx path <;> simp [hfs, h]

/-- Witness for C9 at a concrete input: a valid .json path on an empty
disk is refused. -/
theorem c9_witness :
  (save_current_state (fun _ => false) initTaskManager "./data.json").1 = none :=
  c9_save_refused _ _ _ (Or.inl rfl)

lemma not_mem_keys_of_contains_false {d : Dict} {k : String}
    (h : dictContains d k = false) : k ∉ d.map (fun kv => kv.1) := by
  intro hmem
  rw [List.mem_map] at hmem
  obtain ⟨kv, hkv, hfst⟩ := hmem
  have ht : dictContains d k = true := by
    unfold dictContains
    rw [List.any_eq_true]
    exact ⟨kv, hkv, by simp [hfst]⟩
  rw [ht] at h
  cases h

lemma dictSet_of_contains_false {d : Dict} {k : String} {v : Priority}
    (h : dictContains d k = false) : dictSet d k v = d ++ [(k, v)] := by
  induction d with
  | nil => rfl
  | cons kv rest ih =>
    simp only [dictContains, List.any_cons, Bool.or_eq_false_iff] at h
    simp only [dictSet, h.1, Bool.false_eq_true, if_false, List.cons_append]
    rw [ih (by simpa [dictContains] using h.2)]

lemma dictGet?_dictSet_self (d : Dict) (k : String) (v : Priority) :
    dictGet? (dictSet d k v) k = some v := by
  induction d with
  | nil => simp [dictSet, dictGet?]
  | cons kv rest ih =>
    by_cases hk : kv.1 = k
    · simp [dictSet, dictGet?, hk]
    · simp [dictSet, dictGet?, hk, ih]

lemma dictGet?_dictSet_other (d : Dict) (k k2 : String) (v : Priority)
    (h : k2 ≠ k) : dictGet? (dictSet d k v) k2 = dictGet? d k2 := by
  induction d with
  | nil => simp [dictSet, dictGet?, Ne.symm h]
  | cons kv rest ih =>
    by_cases hk : kv.1 = k
    · have hk2 : kv.1 ≠ k2 := fun hc => h (hc ▸ hk ▸ rfl)
      simp [dictSet, dictGet?, hk, hk2, Ne.symm h]
    · by_cases hk2 : kv.1 = k2
      · simp [dictSet, dictGet?, hk, hk2, h, Ne.symm h]
      · simp [dictSet, dictGet?, hk, hk2, ih]

lemma dictGet?_dictPop_other (d : Dict) (k k2 : String)
    (h : k2 ≠ k) : dictGet? (dictPop d k) k2 = dictGet? d k2 := by
  induction d with
  | nil => rfl
  | cons kv rest ih =>
    by_cases hk : kv.1 = k
    · have hk2 : kv.1 ≠ k2 := fun hc => h (hc ▸ hk ▸ rfl)
      simp [dictPop, dictGet?, List.filter_cons, hk, hk2, h, Ne.symm h] at ih ⊢
      exact ih
    · by_cases hk2 : kv.1 = k2
      · simp [dictPop, dictGet?, List.filter_cons, hk, hk2, h, Ne.symm h]
      · simp [dictPop, dictGet?, List.filter_cons, hk, hk2, h, Ne.symm h] at ih ⊢
        exact ih

/-- C4 as amended: for a priority of the configured type that is not in
the level set, add_task reports the task (in not_added or
not_added_priority, depending on whether the name already exists) and
leaves the whole state unchanged, raising nothing; a priority of the
wrong type instead raises ValueError (see the counterexample). -/
theorem c4_invalid_priority_reported (m : TaskManager) (t : String) (p : Priority)
    (hty : priorityTypeOf p = m.priorities_type)
    (hval : priority_allowed m p = false) :
    (add_task m [AddArg.pair t p]).1.m = m ∧
    (add_task m [AddArg.pair t p]).2 = none ∧
    (t ∈ (add_task m [AddArg.pair t p]).1.not_added ∨
     t ∈ (add_task m [AddArg.pair t p]).1.not_added_priority) := by
  have hv : verify_task_priority m p = Except.ok p := by
    simp [verify_task_priority, hty]
  simp only [add_task, runLoop, add_step, hv]
  unfold add_insert
  cases hct : (lower_keys m.to_do).contains (strLower t) <;>
    simp [runLoop, hval, hct]

/-- Witness for C4 at a concrete input: the priority "urgent" is a
string, like the configured levels, but not one of them; the call
reports it and changes nothing. -/
theorem c4_witness :
  (add_task initTaskManager [AddArg.pair "a" (Priority.s "urgent")]).1.m = initTaskManager ∧
  (add_task initTaskManager [AddArg.pair "a" (Priority.s "urgent")]).2 = none ∧
  ("a" ∈ (add_task initTaskManager [AddArg.pair "a" (Priority.s "urgent")]).1.not_added ∨
   "a" ∈ (add_task initTaskManager [AddArg.pair "a" (Priority.s "urgent")]).1.not_added_priority) :=
  c4_invalid_priority_reported initTaskManager "a" (Priority.s "urgent") rfl (by decide)

/-- C7: on a single-name call, when the queried name resolves through
the case-insensitive task_keys lookup to a stored name og that is not
in done, task_done removes og from to_do, puts it in done exactly once,
records it with its priority in daily_completed_tasks, reports it in
done_tasks and raises nothing; when the name does not resolve, the
state is untouched and the name is reported absent. -/
theorem c7_task_done_moves (m : TaskManager) (t og : String) (p : Priority) :
    (task_keys_get m.to_do (strLower t) = some og →
     dictContains m.done og = false →
     dictGet? m.to_do og = some p →
       (task_done m [t]).1.m.to_do = dictPop m.to_do og ∧
       ((task_done m [t]).1.m.done.map (fun kv => kv.1)).count og = 1 ∧
       dictGet? (task_done m [t]).1.m.daily_completed_tasks og = some p ∧
       (task_done m [t]).1.done_tasks = [og] ∧
       (task_done m [t]).2 = none) ∧
    (task_keys_get m.to_do (strLower t) = none →
       (task_done m [t]).1.m = m ∧
       (task_done m [t]).1.absent_tasks = [t] ∧
       (task_done m [t]).2 = none) := by
  constructor
  · intro hog hnd hp
    simp only [task_done, runLoop, done_step, hog, hnd, hp]
    refine ⟨rfl, ?_, ?_, rfl, rfl⟩
    · rw [dictSet_of_contains_false hnd]
      have h0 : og ∉ m.done.map (fun kv => kv.1) := not_mem_keys_of_contains_false hnd
      simp [List.count_append, List.count_eq_zero.mpr h0]
    · exact dictGet?_dictSet_self _ _ _
  · intro hog
    simp [task_done, runLoop, done_step, hog]

/-- A state with one pending task stored with mixed-case spelling. -/
def mixedState : TaskManager :=
  { initTaskManager with to_do := [("Alpha", Priority.s "high")] }

/-- Witness for C7 at a concrete input: completing "alpha" moves the
stored "Alpha". -/
theorem c7_witness :
  (task_done mixedState ["alpha"]).1.m.to_do = dictPop mixedState.to_do "Alpha" ∧
  ((task_done mixedState ["alpha"]).1.m.done.map (fun kv => kv.1)).count "Alpha" = 1 ∧
  dictGet? (task_done mixedState ["alpha"]).1.m.daily_completed_tasks "Alpha"
    = some (Priority.s "high") ∧
  (task_done mixedState ["alpha"]).1.done_tasks = ["Alpha"] ∧
  (task_done mixedState ["alpha"]).2 = none :=
  (c7_task_done_moves mixedState "alpha" "Alpha" (Priority.s "high")).1
    (by decide) (by decide) (by decide)

/-- C10: the moved task keeps its exact stored spelling og and its
exact priority p in done and in daily_completed_tasks, daily_added is
untouched, and every other key of to_do, done and daily_completed maps
exactly as before the move. -/
theorem c10_task_done_frame (m : TaskManager) (t og : String) (p : Priority)
    (hog : task_keys_get m.to_do (strLower t) = some og)
    (hnd : dictContains m.done og = false)
    (hp : dictGet? m.to_do og = some p) :
    dictGet? (task_done m [t]).1.m.done og = some p ∧
    dictGet? (task_done m [t]).1.m.daily_completed_tasks og = some p ∧
    (task_done m [t]).1.m.daily_added_tasks = m.daily_added_tasks ∧
    (∀ k, k ≠ og → dictGet? (task_done m [t]).1.m.to_do k = dictGet? m.to_do k) ∧
    (∀ k, k ≠ og → dictGet? (task_done m [t]).1.m.done k = dictGet? m.done k) ∧
    (∀ k, k ≠ og →
      dictGet? (task_done m [t]).1.m.daily_completed_tasks k
        = dictGet? m.daily_completed_tasks k) := by
  simp only [task_done, runLoop, done_step, hog, hnd, hp]
  exact ⟨dictGet?_dictSet_self _ _ _, dictGet?_dictSet_self _ _ _, rfl,
    fun k hk => dictGet?_dictPop_other _ _ _ hk,
    fun k hk => dictGet?_dictSet_other _ _ _ _ hk,
    fun k hk => dictGet?_dictSet_other _ _ _ _ hk⟩

/-- Witness for C10 at a concrete input. -/
theorem c10_witness :
  dictGet? (task_done mixedState ["alpha"]).1.m.done "Alpha" = some (Priority.s "high") ∧
  dictGet? (task_done mixedState ["alpha"]).1.m.to_do "Beta" = dictGet? mixedState.to_do "Beta" :=
  ⟨(c10_task_done_frame mixedState "alpha" "Alpha" (Priority.s "high")
      (by decide) (by decide) (by decide)).1,
   (c10_task_done_frame mixedState "alpha" "Alpha" (Priority.s "high")
      (by decide) (by decide) (by decide)).2.2.2.1 "Beta" (by decide)⟩

instance keyLeTotal (asc : Bool) :
    IsTotal ((String × Priority) × Nat) (keyLe asc) := by
  cases asc <;> exact ⟨fun a b => Nat.le_total _ _⟩

instance keyLeTrans (asc : Bool) :
    IsTrans ((String × Priority) × Nat) (keyLe asc) := by
  cases asc
  · exact ⟨fun a b c h1 h2 => Nat.le_trans h1 h2⟩
  · exact ⟨fun a b c h1 h2 => Nat.le_trans h2 h1⟩

/-- The order in which two stored priorities appear in a correctly
sorted listing: by their level index, descending when the configuration
has priorities_order_ascending set (sorted with reverse=True), else
ascending. -/
def keyRel (m : TaskManager) (p q : Priority) : Prop :=
  match m.priorities_order_ascending with
  | true => (sortKey m q).getD 0 ≤ (sortKey m p).getD 0
  | false => (sortKey m p).getD 0 ≤ (sortKey m q).getD 0

lemma keyedList_some (m : TaskManager) :
    ∀ tasks : Dict, (∀ kv ∈ tasks, (sortKey m kv.2).isSome = true) →
    ∃ keyed, keyedList m tasks = some keyed ∧
      keyed.map (fun x => x.1) = tasks ∧
      ∀ x ∈ keyed, sortKey m x.1.2 = some x.2 := by
  intro tasks
  induction tasks with
  | nil => exact fun _ => ⟨[], rfl, rfl, by simp⟩
  | cons kv rest ih =>
    intro h
    obtain ⟨k, hk⟩ := Option.isSome_iff_exists.mp (h kv (List.mem_cons_self _ _))
    obtain ⟨keyed, h1, h2, h3⟩ := ih (fun x hx => h x (List.mem_cons_of_mem _ hx))
    refine ⟨(kv, k) :: keyed, ?_, ?_, ?_⟩
    · simp [keyedList, hk, h1]
    · simp [h2]
    · intro x hx
      rcases List.mem_cons.mp hx with rfl | hx
      · exact hk
      · exact h3 x hx

/-- C8 as amended: for a non-empty task dict each of whose stored
priorities has a sort key (for string levels this means the lowercased
stored priority occurs in the level list, which holds whenever the
configured levels are lowercase; for integer levels it is plain
membership), the listing raises nothing and returns a permutation of
the tasks ordered by the configured level position, descending or
ascending according to priorities_order_ascending; with levels that are
not lowercase the original claim fails (see the counterexample). -/
theorem c8_sorted_amended (m : TaskManager) (tasks : Dict) (w : String)
    (hne : tasks ≠ [])
    (hk : ∀ kv ∈ tasks, (sortKey m kv.2).isSome = true) :
    ∃ l, sorted_tasks m tasks = Except.ok l ∧ l.Perm tasks ∧
      l.Pairwise (fun a b => keyRel m a.2 b.2) ∧
      ∃ out, format_task_list m tasks w = Except.ok out := by
  obtain ⟨keyed, h1, h2, h3⟩ := keyedList_some m tasks hk
  have hok : sorted_tasks m tasks = Except.ok
      ((keyed.insertionSort (keyLe m.priorities_order_ascending)).map (fun x => x.1)) := by
    simp [sorted_tasks, h1]
  have hperm0 := List.perm_insertionSort (keyLe m.priorities_order_ascending) keyed
  have hperm : ((keyed.insertionSort (keyLe m.priorities_order_ascending)).map
      (fun x => x.1)).Perm tasks := by
    rw [← h2]
    exact hperm0.map _
  have hsorted := List.sorted_insertionSort (keyLe m.priorities_order_ascending) keyed
  have hpw : ((keyed.insertionSort (keyLe m.priorities_order_ascending)).map
      (fun x => x.1)).Pairwise (fun a b => keyRel m a.2 b.2) := by
    rw [List.pairwise_map]
    refine List.Pairwise.imp_of_mem ?_ hsorted
    intro a b ha hb hab
    have ha2 : sortKey m a.1.2 = some a.2 := h3 a (hperm0.subset ha)
    have hb2 : sortKey m b.1.2 = some b.2 := h3 b (hperm0.subset hb)
    unfold keyRel
    unfold keyLe at hab
    cases hasc : m.priorities_order_ascending <;>
      rw [hasc] at hab <;> simp [ha2, hb2] <;> exact hab
  have hempty : tasks.isEmpty = false := by
    cases tasks with
    | nil => exact absurd rfl hne
    | cons a b => rfl
  refine ⟨_, hok, hperm, hpw, ?_⟩
  simp only [format_task_list, hempty, Bool.false_eq_true, if_false, hok]
  exact ⟨_, rfl⟩

/-- Witness for C8 at a concrete input: two tasks in default (lowercase
levels, descending) configuration list without raising, sorted high
before low. -/
theorem c8_witness :
  ∃ l, sorted_tasks initTaskManager [("a", Priority.s "low"), ("b", Priority.s "High")]
      = Except.ok l ∧
    l.Perm [("a", Priority.s "low"), ("b", Priority.s "High")] ∧
    l.Pairwise (fun a b => keyRel initTaskManager a.2 b.2) ∧
    ∃ out, format_task_list initTaskManager
      [("a", Priority.s "low"), ("b", Priority.s "High")] "to-do" = Except.ok out :=
  c8_sorted_amended initTaskManager [("a", Priority.s "low"), ("b", Priority.s "High")]
    "to-do" (by decide) (by decide)

lemma dictContains_of_get {d : Dict} {k : String} {p : Priority}
    (h : dictGet? d k = some p) : dictContains d k = true := by
  induction d with
  | nil => cases h
  | cons kv rest ih =>
    by_cases hk : kv.1 = k
    · simp [dictContains, hk]
    · simp only [dictGet?, beq_iff_eq, hk, if_false] at h
      have h2 := ih h
      unfold dictContains at h2 ⊢
      simp [List.any_cons, hk, h2]

lemma strLower_mem_lower_keys_of_contains {d : Dict} {k : String}
    (h : dictContains d k = true) : strLower k ∈ lower_keys d := by
  unfold dictContains at h
  rw [List.any_eq_true] at h
  obtain ⟨kv, hkv, he⟩ := h
  have he2 : kv.1 = k := by simpa using he
  exact List.mem_map.mpr ⟨kv, hkv, by rw [he2]⟩

lemma dictContains_false_of_lower_not_mem {d : Dict} {k : String}
    (h : strLower k ∉ lower_keys d) : dictContains d k = false := by
  cases hc : dictContains d k with
  | false => rfl
  | true => exact absurd (strLower_mem_lower_keys_of_contains hc) h

lemma lower_keys_append (d e : Dict) :
    lower_keys (d ++ e) = lower_keys d ++ lower_keys e := by
  simp [lower_keys]

lemma lower_keys_dictSet_new {d : Dict} {k : String} {v : Priority}
    (h : dictContains d k = false) :
    lower_keys (dictSet d k v) = lower_keys d ++ [strLower k] := by
  rw [dictSet_of_contains_false h, lower_keys_append]
  rfl

lemma lower_keys_dictPop_sublist (d : Dict) (k : String) :
    (lower_keys (dictPop d k)).Sublist (lower_keys d) :=
  (List.filter_sublist d).map _

lemma lower_keys_dictPop_not_mem {d : Dict} {og : String}
    (hnd : (lower_keys d).Nodup) (hc : dictContains d og = true) :
    strLower og ∉ lower_keys (dictPop d og) := by
  intro hmem
  obtain ⟨kv, hkv, he⟩ := List.mem_map.mp hmem
  have hkv2 : kv ∈ d ∧ ¬(kv.1 = og) := by
    have := List.mem_filter.mp hkv
    refine ⟨this.1, ?_⟩
    intro hcon
    simp [hcon] at this
  unfold dictContains at hc
  rw [List.any_eq_true] at hc
  obtain ⟨kv0, hkv0, he0⟩ := hc
  have he02 : kv0.1 = og := by simpa using he0
  have hpw : d.Pairwise (fun a b => strLower a.1 ≠ strLower b.1) :=
    List.pairwise_map.mp hnd
  have hne : kv ≠ kv0 := by
    intro hcon
    exact hkv2.2 (hcon ▸ he02)
  have hsymm : Symmetric (fun a b : String × Priority => strLower a.1 ≠ strLower b.1) :=
    fun a b h hcon => h hcon.symm
  exact hpw.forall hsymm hkv2.1 hkv0 hne (he.trans (by rw [he02]))

lemma clear_fields (m : TaskManager) (w : String) :
    ((clear m w).1.to_do = m.to_do ∨ (clear m w).1.to_do = []) ∧
    ((clear m w).1.done = m.done ∨ (clear m w).1.done = []) := by
  unfold clear
  by_cases hw1 : strLower w = "todo"
  · by_cases he : m.to_do.isEmpty <;> simp [hw1, he]
  · by_cases hw2 : strLower w = "done"
    · by_cases he : m.done.isEmpty <;> simp [hw1, hw2, he]
    · by_cases hw3 : strLower w = "both"
      · by_cases he : m.to_do.isEmpty <;> simp [hw1, hw2, hw3, he]
      · simp [hw1, hw2, hw3]

lemma clear_preserves (m : TaskManager) (w : String)
    (h1 : CrossInv m) (h2 : TodoNodup m) :
    CrossInv (clear m w).1 ∧ TodoNodup (clear m w).1 := by
  obtain ⟨hto, hdo⟩ := clear_fields m w
  constructor
  · intro s hs
    rcases hto with h | h
    · rw [h] at hs
      rcases hdo with h2d | h2d <;> rw [h2d]
      · exact h1 s hs
      · simp [lower_keys]
    · rw [h] at hs
      simp [lower_keys] at hs
  · rcases hto with h | h <;> unfold TodoNodup <;> rw [h]
    · exact h2
    · exact List.nodup_nil

lemma remove_step_frame (tk : Dict) (acc : RemoveAcc) (t : String) :
    (lower_keys (remove_step tk acc t).1.m.to_do).Sublist (lower_keys acc.m.to_do) ∧
    (remove_step tk acc t).1.m.done = acc.m.done := by
  cases hog : task_keys_get tk (strLower t) with
  | none => simp only [remove_step, hog]; exact ⟨List.Sublist.refl _, by trivial⟩
  | some og =>
    cases hc : dictContains acc.m.to_do og with
    | false =>
      simp only [remove_step, hog, hc, Bool.false_eq_true, if_false]
      exact ⟨List.Sublist.refl _, by trivial⟩
    | true =>
      cases hd : dictContains acc.m.daily_added_tasks og with
      | false =>
        simp only [remove_step, hog, hc, hd, if_true, Bool.false_eq_true, if_false]
        exact ⟨lower_keys_dictPop_sublist _ _, by trivial⟩
      | true =>
        simp only [remove_step, hog, hc, hd, if_true]
        exact ⟨lower_keys_dictPop_sublist _ _, by trivial⟩

lemma remove_loop_frame (tk : Dict) :
    ∀ (tasks : List String) (acc : RemoveAcc),
    (lower_keys (runLoop (remove_step tk) acc tasks).1.m.to_do).Sublist
      (lower_keys acc.m.to_do) ∧
    (runLoop (remove_step tk) acc tasks).1.m.done = acc.m.done := by
  intro tasks
  induction tasks with
  | nil => exact fun acc => ⟨List.Sublist.refl _, rfl⟩
  | cons t rest ih =>
    intro acc
    have hstep := remove_step_frame tk acc t
    cases h : remove_step tk acc t with
    | mk acc2 err =>
      rw [h] at hstep
      cases err with
      | none =>
        have := ih acc2
        simp only [runLoop, h]
        exact ⟨this.1.trans hstep.1, this.2.trans hstep.2⟩
      | some e =>
        simp only [runLoop, h]
        exact hstep

lemma remove_preserves (m : TaskManager) (ts : List String)
    (h1 : CrossInv m) (h2 : TodoNodup m) :
    CrossInv (remove_task m ts).1.m ∧ TodoNodup (remove_task m ts).1.m := by
  unfold remove_task
  have hf := remove_loop_frame m.to_do ts (RemoveAcc.mk m [] [])
  constructor
  · intro s hs
    rw [hf.2]
    exact h1 s (hf.1.subset hs)
  · exact hf.1.nodup h2

lemma done_step_inv (tk : Dict) (acc : DoneAcc) (t : String)
    (h1 : CrossInv acc.m) (h2 : TodoNodup acc.m) :
    CrossInv (done_step tk acc t).1.m ∧ TodoNodup (done_step tk acc t).1.m := by
  cases hog : task_keys_get tk (strLower t) with
  | none => simp only [done_step, hog]; exact ⟨h1, h2⟩
  | some og =>
    cases hd : dictContains acc.m.done og with
    | true => simp only [done_step, hog, hd, if_true]; exact ⟨h1, h2⟩
    | false =>
      cases hp : dictGet? acc.m.to_do og with
      | none =>
        simp only [done_step, hog, hd, Bool.false_eq_true, if_false, hp]
        exact ⟨h1, h2⟩
      | some p =>
        simp only [done_step, hog, hd, Bool.false_eq_true, if_false, hp]
        constructor
        · intro s hs
          have hold : s ∈ lower_keys acc.m.to_do :=
            (lower_keys_dictPop_sublist _ _).subset hs
          rw [lower_keys_dictSet_new hd]
          intro hmem
          rcases List.mem_append.mp hmem with hmem | hmem
          · exact h1 s hold hmem
          · have hcget : dictContains acc.m.to_do og = true := dictContains_of_get hp
            have hnot := lower_keys_dictPop_not_mem h2 hcget
            rw [List.mem_singleton] at hmem
            rw [hmem] at hs
            exact hnot hs
        · exact (lower_keys_dictPop_sublist _ _).nodup h2

lemma done_loop_inv (tk : Dict) :
    ∀ (tasks : List String) (acc : DoneAcc),
    CrossInv acc.m → TodoNodup acc.m →
    CrossInv (runLoop (done_step tk) acc tasks).1.m ∧
    TodoNodup (runLoop (done_step tk) acc tasks).1.m := by
  intro tasks
  induction tasks with
  | nil => exact fun acc hi hn => ⟨hi, hn⟩
  | cons t rest ih =>
    intro acc hi hn
    have hstep := done_step_inv tk acc t hi hn
    cases h : done_step tk acc t with
    | mk acc2 err =>
      rw [h] at hstep
      cases err with
      | none =>
        simp only [runLoop, h]
        exact ih acc2 hstep.1 hstep.2
      | some e =>
        simp only [runLoop, h]
        exact hstep

lemma done_preserves (m : TaskManager) (ts : List String)
    (h1 : CrossInv m) (h2 : TodoNodup m) :
    CrossInv (task_done m ts).1.m ∧ TodoNodup (task_done m ts).1.m :=
  done_loop_inv m.to_do ts (DoneAcc.mk m [] [] []) h1 h2

lemma contains_true_of_mem {l : List String} {x : String} (h : x ∈ l) :
    l.contains x = true := by
  induction l with
  | nil => cases h
  | cons y ys ih =>
    rcases List.mem_cons.mp h with rfl | h2
    · simp [List.contains_cons]
    · simp [List.contains_cons]
      exact Or.inr h2

lemma add_insert_cases (snapshot : List String) (acc : AddAcc) (t : String)
    (p : Priority) :
    (add_insert snapshot acc t p).m = acc.m ∨
    (snapshot.contains (strLower t) = false ∧
     (add_insert snapshot acc t p).m.to_do = dictSet acc.m.to_do t p ∧
     (add_insert snapshot acc t p).m.done = acc.m.done) := by
  unfold add_insert
  cases hct : snapshot.contains (strLower t) with
  | true =>
    cases hlv : priority_allowed acc.m p with
    | true => simp [hct, hlv]
    | false => simp [hct, hlv]
  | false =>
    cases hlv : priority_allowed acc.m p with
    | true => simp [hct, hlv]
    | false => simp [hct, hlv]

lemma add_step_cases (snapshot : List String) (acc : AddAcc) (arg : AddArg) :
    (add_step snapshot acc arg).1.m = acc.m ∨
    (∃ t p, argName? arg = some t ∧
      snapshot.contains (strLower t) = false ∧
      (add_step snapshot acc arg).1.m.to_do = dictSet acc.m.to_do t p ∧
      (add_step snapshot acc arg).1.m.done = acc.m.done) := by
  cases arg with
  | other => exact Or.inl rfl
  | taskName t =>
    rcases add_insert_cases snapshot acc t acc.m.default_priority with h | ⟨h1, h2, h3⟩
    · exact Or.inl h
    · exact Or.inr ⟨t, acc.m.default_priority, rfl, h1, h2, h3⟩
  | pair t p =>
    cases hv : verify_task_priority acc.m p with
    | error e => simp only [add_step, hv]; exact Or.inl (by trivial)
    | ok p2 =>
      rcases add_insert_cases snapshot acc t p2 with h | ⟨h1, h2, h3⟩
      · simp only [add_step, hv]; exact Or.inl h
      · simp only [add_step, hv]; exact Or.inr ⟨t, p2, rfl, h1, h2, h3⟩

lemma add_loop_inv (snapshot : List String) :
    ∀ (args : List AddArg) (acc : AddAcc),
    TodoNodup acc.m → CrossInv acc.m →
    (∀ a ∈ args, ∀ t, argName? a = some t → strLower t ∉ lower_keys acc.m.done) →
    (∀ a ∈ args, ∀ t, argName? a = some t →
        strLower t ∈ snapshot ∨ strLower t ∉ lower_keys acc.m.to_do) →
    ((args.filterMap argName?).map strLower).Nodup →
    TodoNodup (runLoop (add_step snapshot) acc args).1.m ∧
    CrossInv (runLoop (add_step snapshot) acc args).1.m := by
  intro args
  induction args with
  | nil => exact fun acc hN hC _ _ _ => ⟨hN, hC⟩
  | cons a rest ih =>
    intro acc hN hC hdone hsnap hnodup
    cases hstep : add_step snapshot acc a with
    | mk acc2 err =>
      have hcases := add_step_cases snapshot acc a
      rw [hstep] at hcases
      have key : TodoNodup acc2.m ∧ CrossInv acc2.m ∧ acc2.m.done = acc.m.done ∧
          (lower_keys acc2.m.to_do = lower_keys acc.m.to_do ∨
           ∃ t, argName? a = some t ∧
             lower_keys acc2.m.to_do = lower_keys acc.m.to_do ++ [strLower t]) := by
        rcases hcases with h | ⟨t, p, ha, hct, hset, hdn⟩
        · exact ⟨by rw [h]; exact hN, by rw [h]; exact hC, by rw [h], Or.inl (by rw [h])⟩
        · have hmem : strLower t ∉ lower_keys acc.m.to_do := by
            rcases hsnap a (List.mem_cons_self a rest) t ha with hin | hout
            · rw [contains_true_of_mem hin] at hct
              cases hct
            · exact hout
          have hdc : dictContains acc.m.to_do t = false :=
            dictContains_false_of_lower_not_mem hmem
          have hlk : lower_keys acc2.m.to_do = lower_keys acc.m.to_do ++ [strLower t] := by
            rw [hset]
            exact lower_keys_dictSet_new hdc
          refine ⟨?_, ?_, hdn, Or.inr ⟨t, ha, hlk⟩⟩
          · unfold TodoNodup
            rw [hlk, List.nodup_append]
            exact ⟨hN, List.nodup_singleton _, by simpa using hmem⟩
          · intro s hs
            rw [hdn]
            rw [hlk] at hs
            rcases List.mem_append.mp hs with hs | hs
            · exact hC s hs
            · rw [List.mem_singleton] at hs
              subst hs
              exact hdone a (List.mem_cons_self a rest) t ha
      obtain ⟨hN2, hC2, hdone2eq, hlkcase⟩ := key
      cases err with
      | some e =>
        simp only [runLoop, hstep]
        exact ⟨hN2, hC2⟩
      | none =>
        simp only [runLoop, hstep]
        refine ih acc2 hN2 hC2 ?_ ?_ ?_
        · intro a2 ha2 t2 ht2
          rw [hdone2eq]
          exact hdone a2 (List.mem_cons_of_mem a ha2) t2 ht2
        · intro a2 ha2 t2 ht2
          rcases hsnap a2 (List.mem_cons_of_mem a ha2) t2 ht2 with hin | hout
          · exact Or.inl hin
          · rcases hlkcase with heq | ⟨t, ha, hlk⟩
            · rw [heq]
              exact Or.inr hout
            · rw [hlk]
              refine Or.inr ?_
              intro hmm
              rcases List.mem_append.mp hmm with hmm | hmm
              · exact hout hmm
              · rw [List.mem_singleton] at hmm
                have hfm : (a :: rest).filterMap argName? = t :: rest.filterMap argName? := by
                  simp [List.filterMap_cons, ha]
                rw [hfm] at hnodup
                simp only [List.map_cons, List.nodup_cons] at hnodup
                apply hnodup.1
                rw [← hmm]
                exact List.mem_map.mpr ⟨t2, List.mem_filterMap.mpr ⟨a2, ha2, ht2⟩, rfl⟩
        · cases hfm : argName? a with
          | none =>
            have heq : (a :: rest).filterMap argName? = rest.filterMap argName? := by
              simp [List.filterMap_cons, hfm]
            rw [heq] at hnodup
            exact hnodup
          | some t =>
            have heq : (a :: rest).filterMap argName? = t :: rest.filterMap argName? := by
              simp [List.filterMap_cons, hfm]
            rw [heq] at hnodup
            simp only [List.map_cons, List.nodup_cons] at hnodup
            exact hnodup.2

lemma add_preserves (m : TaskManager) (args : List AddArg)
    (h1 : CrossInv m) (h2 : TodoNodup m)
    (hok : OKOp m (Op.add args)) :
    CrossInv (add_task m args).1.m ∧ TodoNodup (add_task m args).1.m := by
  obtain ⟨hnodup, hdone⟩ := hok
  unfold add_task
  have hmain := add_loop_inv (lower_keys m.to_do) args (AddAcc.mk m [] [] [] []) h2 h1
    (fun a ha t ht => hdone t (List.mem_filterMap.mpr ⟨a, ha, ht⟩))
    (fun a ha t ht => by
      by_cases hm : strLower t ∈ lower_keys m.to_do
      · exact Or.inl hm
      · exact Or.inr hm)
    hnodup
  exact ⟨hmain.2, hmain.1⟩

lemma step_preserves (m : TaskManager) (op : Op)
    (h1 : CrossInv m) (h2 : TodoNodup m) (hok : OKOp m op) :
    CrossInv (applyOp m op) ∧ TodoNodup (applyOp m op) := by
  cases op with
  | add args => exact add_preserves m args h1 h2 hok
  | remove ts => exact remove_preserves m ts h1 h2
  | complete ts => exact done_preserves m ts h1 h2
  | clearOp w => exact clear_preserves m w h1 h2
  | load f => exact ⟨hok.1, hok.2⟩

lemma seq_preserves : ∀ (ops : List Op) (m : TaskManager),
    CrossInv m → TodoNodup m → OKSeq m ops →
    CrossInv (applyOps m ops) ∧ TodoNodup (applyOps m ops)
  | [], m, h1, h2, _ => ⟨h1, h2⟩
  | op :: rest, m, h1, h2, hseq => by
    have hs := step_preserves m op h1 h2 hseq.1
    exact seq_preserves rest (applyOp m op) hs.1 hs.2 hseq.2

/-- C1 as amended: starting from any state satisfying the invariant
whose to_do has no case-insensitively duplicate names (the fresh
manager in particular), every sequence of add_task, remove_task,
task_done, clear and load_state operations preserves the invariant that
a name appears, case-insensitively, in at most one of to_do and done,
provided each add_task call passes neither a name already in done nor
two case-insensitively equal names, and each load_state call loads a
file whose own to_do and done already satisfy both conditions.  Without
the add_task proviso the invariant fails, because add_task checks only
to_do (see the counterexample). -/
theorem c1_invariant_amended (m : TaskManager) (ops : List Op)
    (h1 : CrossInv m) (h2 : TodoNodup m) (hok : OKSeq m ops) :
    CrossInv (applyOps m ops) :=
  (seq_preserves ops m h1 h2 hok).1

/-- Witness for C1 at a concrete run mixing all conditioned operations
from the fresh manager. -/
theorem c1_witness :
    CrossInv (applyOps initTaskManager
      [Op.add [AddArg.taskName "a", AddArg.pair "b" (Priority.s "high")],
       Op.complete ["A"], Op.remove ["b"], Op.clearOp "both"]) :=
  c1_invariant_amended initTaskManager
    [Op.add [AddArg.taskName "a", AddArg.pair "b" (Priority.s "high")],
     Op.complete ["A"], Op.remove ["b"], Op.clearOp "both"]
    (by decide) (by decide) (by decide)
